import Mathlib

/-!
Verification of the Hit4Power player-development application core
(`app/main.py`, `app/utils.py`, `app/models.py`).

The development shallowly embeds:

* the code-normalization and percent-delta helpers of `app/utils.py`;
* the "latest metrics" SQL query builder `_latest_metrics_query` of
  `app/main.py` (both its `recorded_at` branch and its `max(id)` fallback
  branch), as a pure function on lists of metric rows;
* the chart-series builder `_chart_series` of `app/main.py`;
* the startup schema reconciler `_ensure_schema` of `app/main.py`, as a
  function on an explicit database-schema state.

Python strings are modelled as Lean `String` (lists of characters);
timestamps and day labels are the TEXT strings the SQLite schema stores,
compared lexicographically by character, as SQLite compares TEXT.
Machine floats from the `value` column are modelled as rationals; none of
the verified properties depend on rounding.
-/

/-! ### Character-wise lexicographic order on strings

SQLite compares TEXT values lexicographically (memcmp on the encoding);
`ORDER BY`, `MAX` and Python `<` on ISO-8601 timestamp strings all reduce
to this order.  We give it as an executable Boolean comparison on the
character lists underlying `String`. -/

def lexLe : List Char → List Char → Bool
  | [], _ => true
  | _ :: _, [] => false
  | a :: as, b :: bs => if a < b then true else if a = b then lexLe as bs else false

/-- Lexicographic order on strings, the order used for TEXT columns. -/
def strle (a b : String) : Prop := lexLe a.toList b.toList = true

instance : DecidableRel strle := fun _ _ => instDecidableEqBool _ _

/-! ### Generic list helpers

`listMaxBy` models SQL `MAX(col)` over a (possibly empty) group: `none` on
the empty group, otherwise the fold of the binary maximum for the given
order.  The lemmas hold for any total transitive decidable order and are
instantiated at `strle` (TEXT timestamps) and `Nat.le` (surrogate ids). -/

def listMaxBy (le : α → α → Prop) [DecidableRel le] : List α → Option α
  | [] => none
  | a :: l => some (l.foldl (fun acc x => if le acc x then x else acc) a)

/-! ### Embedding of `app/utils.py`

`pyStrip` is Python's `str.strip()` on the underlying character list;
`normalize_code` is `utils.normalize_code`:

    if s is None: return ""
    return re.sub(r"[^A-Z0-9]", "", s.strip().upper())

`re.sub(r"[^A-Z0-9]", "", -)` deletes every character outside `A`-`Z`,
`0`-`9`, i.e. it filters with `isCodeChar`.  Python `str.upper()` is
modelled by `Char.toUpper` (the inputs of interest are ASCII; characters
whose uppercase form is non-ASCII are deleted by the filter either way). -/

def pyStrip (cs : List Char) : List Char :=
  ((cs.dropWhile Char.isWhitespace).reverse.dropWhile Char.isWhitespace).reverse

/-- Character class kept by the regex `[^A-Z0-9]` deletion: `A`-`Z` (65-90)
and `0`-`9` (48-57). -/
def isCodeChar (c : Char) : Bool :=
  (65 ≤ c.toNat && c.toNat ≤ 90) || (48 ≤ c.toNat && c.toNat ≤ 57)

def normalize_code : Option String → String
  | none => ""
  | some s => String.mk (((pyStrip s.toList).map Char.toUpper).filter isCodeChar)

/-- Embedding of `utils.percent_delta`:

    if value is None or reference in (None, 0): return None
    return (value - reference) / reference -/
def percent_delta (value reference : Option ℚ) : Option ℚ :=
  match value, reference with
  | none, _ => none
  | some _, none => none
  | some v, some r => if r = 0 then none else some ((v - r) / r)

/-! ### Data model: metric rows (`app/models.py`, class `Metric`)

One row of the `metrics` table, with the columns the verified queries
touch.  `recorded_at` is the TEXT timestamp the patched schema stores
(after reconciliation it is never NULL, see `ensure_schema` below), and
`value` is the REAL column, modelled as a rational. -/

structure MetricRow where
  id : Nat
  player_id : Nat
  metric : String
  value : ℚ
  unit : Option String
  recorded_at : String
  source : Option String
  entered_by_instructor_id : Option Nat
  note : Option String
deriving DecidableEq

/-- Rows of the metrics table belonging to one player: the SQL filter
`WHERE metrics.player_id = :player_id` shared by both branches of
`_latest_metrics_query`. -/
def playerRows (rows : List MetricRow) (pid : Nat) : List MetricRow :=
  rows.filter fun r => r.player_id == pid

/-- Rows of one `GROUP BY metric` group of a player's rows. -/
def metricGroup (rows : List MetricRow) (pid : Nat) (m : String) : List MetricRow :=
  (playerRows rows pid).filter fun r => r.metric == m

/-- The distinct metric names of a player's rows, in ascending TEXT order:
the combination of the subquery's `GROUP BY metric` with the outer
query's `ORDER BY metric ASC`. -/
def sortedNames (rows : List MetricRow) (pid : Nat) : List String :=
  List.insertionSort strle ((playerRows rows pid).map fun r => r.metric).dedup

/-- Core of `_latest_metrics_query` (`app/main.py` lines 318-345): the
subquery takes `MAX(key)` per metric-name group of the player's rows, and
the outer query joins the metrics table back on
`metric = subq.metric AND key = subq.latest`, returning every row of the
group whose key equals the group maximum, ordered by metric name.
`le` is the order of the key column (`strle` for the TEXT `recorded_at`
branch, `Nat.le` for the `id` fallback branch). -/
def latestBy (key : MetricRow → α) (le : α → α → Prop) [DecidableRel le]
    [BEq α] (rows : List MetricRow) (pid : Nat) : List MetricRow :=
  (sortedNames rows pid).flatMap fun m =>
    let grp := metricGroup rows pid m
    grp.filter fun r => listMaxBy le (grp.map key) == some (key r)

/-- Branch of `_latest_metrics_query` used when the `recorded_at` column
exists: newest row(s) per metric name by `MAX(recorded_at)`. -/
def latestByTimestamp (rows : List MetricRow) (pid : Nat) : List MetricRow :=
  latestBy (fun r => r.recorded_at) strle rows pid

/-- Fallback branch of `_latest_metrics_query` used when the
`recorded_at` column is unavailable: row per metric name by `MAX(id)`. -/
def latestById (rows : List MetricRow) (pid : Nat) : List MetricRow :=
  latestBy (fun r => r.id) (fun a b => a ≤ b) rows pid

/-- Embedding of `_latest_metrics_query(player_id)` evaluated against a
row set: `hasRecordedAt` is the result of the
`_has_column("metrics", "recorded_at")` probe that selects the branch. -/
def latest_metrics_query (hasRecordedAt : Bool) (rows : List MetricRow) (pid : Nat) :
    List MetricRow :=
  if hasRecordedAt then latestByTimestamp rows pid else latestById rows pid

/-! ### Embedding of `_chart_series` (`app/main.py` lines 25-70)

The handler fetches the player's rows ordered by `recorded_at` ascending,
collects day labels in first-seen order, then builds one dict per charted
metric mapping day label to the value of the last row seen for that
(metric, day) — iteration in row order means the last matching row wins —
and finally reads each dict back over the label list with default `None`.
The early `return [], [], [], []` for a player without rows coincides
with mapping over the empty label list. -/

/-- Python `_day`: `v.strip()[:10] if len(v.strip()) >= 10 else v.strip()`
(the stored value is a TEXT timestamp). -/
def dayLabel (v : String) : String :=
  let s := pyStrip v.toList
  if s.length ≥ 10 then String.mk (s.take 10) else String.mk s

/-- Python `(r.metric or "").strip().lower()` applied to a row's metric
name. -/
def normName (s : String) : String := String.mk ((pyStrip s.toList).map Char.toLower)

/-- The `ORDER BY recorded_at ASC` fetch: a stable sort of the player's
rows by their TEXT timestamp. -/
def sortByRecordedAt (l : List MetricRow) : List MetricRow :=
  List.insertionSort (fun a b => strle a.recorded_at b.recorded_at) l

/-- The `labels` / `seen` loop of `_chart_series`: collect values in
first-seen order, skipping any value already in the `seen` set. -/
def firstDedupAux [DecidableEq α] (seen : List α) : List α → List α
  | [] => []
  | a :: l => if a ∈ seen then firstDedupAux seen l else a :: firstDedupAux (a :: seen) l

/-- Day labels in first-seen order. -/
def firstDedup [DecidableEq α] (l : List α) : List α := firstDedupAux [] l

/-- Value of the dict `wanted[m]` at day label `d`: the value of the last
row in iteration order whose normalized metric name is `m` and whose day
label is `d`, or `none` when no row matches (`defaultdict(lambda: None)`). -/
def lastValueOn (mine : List MetricRow) (m d : String) : Option ℚ :=
  ((mine.filter fun r => normName r.metric == m && dayLabel r.recorded_at == d).getLast?).map
    fun r => r.value

/-- The player's rows in fetch order. -/
def chartMine (rows : List MetricRow) (pid : Nat) : List MetricRow :=
  sortByRecordedAt (rows.filter fun r => r.player_id == pid)

/-- The chart's day labels. -/
def chartLabels (rows : List MetricRow) (pid : Nat) : List String :=
  firstDedup ((chartMine rows pid).map fun r => dayLabel r.recorded_at)

/-- Embedding of `_chart_series(db, player_id)`: returns
`(dates, ev, la, sr)` with the three series aligned to `dates`. -/
def chart_series (rows : List MetricRow) (pid : Nat) :
    List String × List (Option ℚ) × List (Option ℚ) × List (Option ℚ) :=
  let mine := chartMine rows pid
  let labels := chartLabels rows pid
  (labels,
    labels.map fun d => lastValueOn mine "exit_velocity" d,
    labels.map fun d => lastValueOn mine "launch_angle" d,
    labels.map fun d => lastValueOn mine "spin_rate" d)

/-! ### Embedding of `_ensure_schema` (`app/main.py` lines 159-290)

The reconciler introspects the column set of each known table (all column
snapshots are taken before any DDL, and each table's DDL touches only that
table), adds every expected column missing from the snapshot, backfills
`metrics.recorded_at`, and creates the `favorites` table if absent.

The database is a `DBState`: per-table column sets, the rows of the
metrics table that the backfill touches, the engine dialect, and the set
of tables whose introspection raises (SQLAlchemy's `inspect`; the code
catches the exception, logs, and uses an empty column set).  `ensure_schema`
returns the new state together with the log of applied DDL, or the error
text of the first failing DDL statement.  Row-level `COALESCE` backfills of
the notes / drill_assignments / instructors / players tables never fail and
are not tracked.  `Base.metadata.create_all` runs before `_ensure_schema`,
so all five tables exist. -/

/-- One row of the metrics table as the backfill sees it: the
`recorded_at` and `created_at` cells, either possibly NULL. -/
structure BackRow where
  recorded_at : Option String
  created_at : Option String
deriving DecidableEq

structure DBState where
  dialect : String
  failing : List String
  instructors : Finset String
  players : Finset String
  metrics : Finset String
  notes : Finset String
  drill_assignments : Finset String
  hasFavorites : Bool
  metricsRows : List BackRow
  now : String
deriving DecidableEq

/-- Introspected column set of a table: empty when the inspector raises
(the `cols` helper catches the exception and returns `set()`). -/
def colsOf (st : DBState) (t : String) : Finset String :=
  if t ∈ st.failing then ∅
  else if t = "instructors" then st.instructors
  else if t = "players" then st.players
  else if t = "metrics" then st.metrics
  else if t = "notes" then st.notes
  else if t = "drill_assignments" then st.drill_assignments
  else ∅

/-- Embedding of `_add`: `ALTER TABLE t ADD COLUMN c`.  On the
`postgresql` dialect the statement is rewritten to
`ADD COLUMN IF NOT EXISTS`, so a duplicate add is a no-op success; on
other dialects (SQLite) adding an existing column raises. -/
def addCol (dialect : String) (cols : Finset String) (c : String) :
    Except String (Finset String) :=
  if dialect = "postgresql" then .ok (insert c cols)
  else if c ∈ cols then .error ("duplicate column: " ++ c)
  else .ok (insert c cols)

/-- One table's guarded adds: for each expected column, if it is missing
from the introspection snapshot, run `_add` against the current columns.
Returns the final column set and the list of columns added. -/
def addMissing (dialect : String) (snap : Finset String) :
    List String → Finset String → Except String (Finset String × List String)
  | [], cols => .ok (cols, [])
  | n :: rest, cols =>
    if n ∈ snap then addMissing dialect snap rest cols
    else
      match addCol dialect cols n with
      | .error e => .error e
      | .ok cols2 =>
        match addMissing dialect snap rest cols2 with
        | .error e => .error e
        | .ok (cf, log) => .ok (cf, n :: log)

def instructorsExpected : List String := ["login_code", "created_at", "updated_at"]

def playersExpected : List String :=
  ["login_code", "age", "phone", "image_path", "created_at", "updated_at"]

def metricsExpected : List String :=
  ["metric", "value", "unit", "recorded_at", "source", "entered_by_instructor_id", "note"]

def notesExpected : List String := ["kind", "shared", "created_at", "updated_at"]

def drillsExpected : List String := ["status", "note", "due_date", "created_at", "updated_at"]

/-- Embedding of `_ensure_schema`. -/
def ensure_schema (st : DBState) : Except String (DBState × List String) :=
  let d := st.dialect
  match addMissing d (colsOf st "instructors") instructorsExpected st.instructors with
  | .error e => .error e
  | .ok (ic, l1) =>
  match addMissing d (colsOf st "players") playersExpected st.players with
  | .error e => .error e
  | .ok (pc, l2) =>
  match addMissing d (colsOf st "metrics") metricsExpected st.metrics with
  | .error e => .error e
  | .ok (mc, l3) =>
  -- backfill of metrics.recorded_at (lines 221-233); re-introspects metrics
  let st1 : DBState := { st with instructors := ic, players := pc, metrics := mc }
  let mcAfter := colsOf st1 "metrics"
  let rows2 :=
    if "recorded_at" ∈ mcAfter then
      if "created_at" ∈ mcAfter then
        st.metricsRows.map fun r =>
          { r with recorded_at := some (r.recorded_at.getD (r.created_at.getD st.now)) }
      else
        st.metricsRows.map fun r =>
          { r with recorded_at := some (r.recorded_at.getD st.now) }
    else st.metricsRows
  match addMissing d (colsOf st "notes") notesExpected st.notes with
  | .error e => .error e
  | .ok (nc, l4) =>
  -- drill_assignments re-introspects its columns just before its adds
  let st2 : DBState := { st1 with notes := nc, metricsRows := rows2 }
  match addMissing d (colsOf st2 "drill_assignments") drillsExpected st.drill_assignments with
  | .error e => .error e
  | .ok (dc, l5) =>
  let lfav : List String := if st.hasFavorites then [] else ["favorites"]
  .ok ({ st2 with drill_assignments := dc, hasFavorites := true },
    (l1.map fun n => "instructors." ++ n) ++ (l2.map fun n => "players." ++ n) ++
    (l3.map fun n => "metrics." ++ n) ++ (l4.map fun n => "notes." ++ n) ++
    (l5.map fun n => "drill_assignments." ++ n) ++ lfav)

/-- Saturated state reached by a successful reconciliation run on a state
whose introspection works: every table's columns are extended with its
expected list, the favorites table exists, and `recorded_at` is
backfilled on every metrics row. -/
def reconciled (st : DBState) : DBState :=
  { st with
    instructors := st.instructors ∪ instructorsExpected.toFinset,
    players := st.players ∪ playersExpected.toFinset,
    metrics := st.metrics ∪ metricsExpected.toFinset,
    notes := st.notes ∪ notesExpected.toFinset,
    drill_assignments := st.drill_assignments ∪ drillsExpected.toFinset,
    hasFavorites := true,
    metricsRows :=
      if "created_at" ∈ st.metrics ∪ metricsExpected.toFinset then
        st.metricsRows.map fun r =>
          { r with recorded_at := some (r.recorded_at.getD (r.created_at.getD st.now)) }
      else
        st.metricsRows.map fun r =>
          { r with recorded_at := some (r.recorded_at.getD st.now) } }

/-- Log of a successful reconciliation run on a state whose introspection
works: one entry per column that was genuinely missing, plus the
favorites table creation. -/
def addedLog (st : DBState) : List String :=
  ((instructorsExpected.filter fun n => decide (n ∉ st.instructors)).map
      fun n => "instructors." ++ n) ++
  ((playersExpected.filter fun n => decide (n ∉ st.players)).map fun n => "players." ++ n) ++
  ((metricsExpected.filter fun n => decide (n ∉ st.metrics)).map fun n => "metrics." ++ n) ++
  ((notesExpected.filter fun n => decide (n ∉ st.notes)).map fun n => "notes." ++ n) ++
  ((drillsExpected.filter fun n => decide (n ∉ st.drill_assignments)).map
      fun n => "drill_assignments." ++ n) ++
  (if st.hasFavorites then [] else ["favorites"])

/-! ### Concrete database fixtures used by witnesses and counterexamples -/

/-- Two rows for one player and one metric name sharing the identical
maximal `recorded_at` with different ids. -/
def tieRows : List MetricRow :=
  [⟨1, 7, "exit_velocity", 90, some "mph", "2024-05-03 10:00:00", some "instructor", none, none⟩,
   ⟨2, 7, "exit_velocity", 91, some "mph", "2024-05-03 10:00:00", some "instructor", none, none⟩]

/-- A second timestamp-tie fixture: player 3, ids 5 and 6. -/
def tieRows2 : List MetricRow :=
  [⟨5, 3, "exit_velocity", 88, none, "2024-06-01 10:00:00", none, none, none⟩,
   ⟨6, 3, "exit_velocity", 92, none, "2024-06-01 10:00:00", none, none, none⟩]

/-- Player 7: exit velocity on May 1 and May 3, launch angle on May 3
only. -/
def sampleRows : List MetricRow :=
  [⟨1, 7, "exit_velocity", 88, some "mph", "2024-05-01 09:00:00", some "instructor",
      some 1, none⟩,
   ⟨2, 7, "exit_velocity", 91, some "mph", "2024-05-03 09:00:00", some "instructor",
      some 1, none⟩,
   ⟨3, 7, "launch_angle", 12, some "deg", "2024-05-03 10:00:00", some "instructor",
      some 1, none⟩]

/-- A legacy database: all patched columns missing, no favorites table,
one metrics row with NULL `recorded_at`. -/
def legacyState : DBState :=
  { dialect := "sqlite", failing := [],
    instructors := {"id", "name"}, players := {"id", "name"},
    metrics := {"id", "player_id"}, notes := {"id", "player_id", "text"},
    drill_assignments := {"id", "player_id", "drill_id"},
    hasFavorites := false,
    metricsRows := [⟨none, some "2024-01-02 08:00:00"⟩, ⟨some "2024-03-01 12:00:00", none⟩],
    now := "2025-01-01 00:00:00" }

/-- The legacy database with a `created_at` column on the metrics table,
so the backfill draws from it. -/
def legacyStateCreated : DBState :=
  { legacyState with metrics := {"id", "player_id", "created_at"} }

/-- A fully-patched SQLite database whose metrics-table introspection
fails. -/
def failingSqliteState : DBState :=
  { dialect := "sqlite", failing := ["metrics"],
    instructors := {"id", "name", "login_code", "created_at", "updated_at"},
    players := {"id", "name", "login_code", "age", "phone", "image_path", "created_at",
      "updated_at"},
    metrics := {"id", "player_id", "metric", "value", "unit", "recorded_at", "source",
      "entered_by_instructor_id", "note"},
    notes := {"id", "player_id", "text", "kind", "shared", "created_at", "updated_at"},
    drill_assignments := {"id", "player_id", "drill_id", "status", "note", "due_date",
      "created_at", "updated_at"},
    hasFavorites := true,
    metricsRows := [],
    now := "2025-01-01 00:00:00" }

/-- The same failing-introspection database on the postgresql dialect. -/
def failingPostgresState : DBState :=
  { failingSqliteState with dialect := "postgresql" }

/-- A SQLite database whose metrics-table introspection fails while the
metrics table genuinely lacks the expected columns (so the first run's
adds all succeed). -/
def failingFreshSqliteState : DBState :=
  { failingSqliteState with metrics := {"id", "player_id"} }

/-- The failing-introspection database on the postgresql dialect with one
metrics row whose `recorded_at` is NULL. -/
def failingPostgresNullRow : DBState :=
  { failingPostgresState with metricsRows := [⟨none, some "2024-01-02 08:00:00"⟩] }

/-- Two reconciliation runs in sequence: the second starts from the state
the first produced (the deployment scenario behind the idempotence
requirement). -/
def ensure_schema_twice (st : DBState) : Except String (DBState × List String) :=
  match ensure_schema st with
  | .error e => .error e
  | .ok p => ensure_schema p.1

/-- The metrics rows of the state a successful reconciliation run
produces (empty when the run fails). -/
def metricsRowsAfter (st : DBState) : List BackRow :=
  match ensure_schema st with
  | .error _ => []
  | .ok p => p.1.metricsRows

/-! ### Order and list lemmas -/

theorem lexLe_total (x y : List Char) : lexLe x y = true ∨ lexLe y x = true := by
  induction x generalizing y with
  | nil => left; rfl
  | cons a as ih =>
    cases y with
    | nil => right; rfl
    | cons b bs =>
      rcases lt_trichotomy a b with h | h | h
      · left; simp [lexLe, h]
      · subst h
        rcases ih bs with h2 | h2
        · left; simp [lexLe, h2]
        · right; simp [lexLe, h2]
      · right; simp [lexLe, h, not_lt_of_lt h, ne_of_gt h]

theorem lexLe_trans {x y z : List Char} (h1 : lexLe x y = true) (h2 : lexLe y z = true) :
    lexLe x z = true := by
  induction x generalizing y z with
  | nil => rfl
  | cons a as ih =>
    cases y with
    | nil => simp [lexLe] at h1
    | cons b bs =>
      cases z with
      | nil => simp [lexLe] at h2
      | cons c cs =>
        simp only [lexLe] at h1 h2 ⊢
        by_cases hab : a < b
        · by_cases hbc : b < c
          · simp [lt_trans hab hbc]
          · simp only [hbc, if_false] at h2
            by_cases hbc2 : b = c
            · subst hbc2; simp [hab]
            · simp [hbc2] at h2
        · simp only [hab, if_false] at h1
          by_cases hab2 : a = b
          · subst hab2
            by_cases hac : a < c
            · simp [hac]
            · simp only [hac, if_false] at h2 ⊢
              by_cases hac2 : a = c
              · subst hac2; simp at h2 ⊢; simp [lexLe] at h1 h2; exact ih h1 h2
              · simp [hac2] at h2 ⊢
          · simp [hab2] at h1

theorem lexLe_antisymm {x y : List Char} (h1 : lexLe x y = true) (h2 : lexLe y x = true) :
    x = y := by
  induction x generalizing y with
  | nil => cases y with
    | nil => rfl
    | cons b bs => simp [lexLe] at h2
  | cons a as ih =>
    cases y with
    | nil => simp [lexLe] at h1
    | cons b bs =>
      simp only [lexLe] at h1 h2
      by_cases hab : a < b
      · simp [not_lt_of_lt hab, ne_of_gt hab] at h2
      · simp only [hab, if_false] at h1
        by_cases hab2 : a = b
        · subst hab2
          simp [lt_irrefl] at h1 h2
          rw [ih h1 h2]
        · simp [hab2] at h1

theorem strle_total (a b : String) : strle a b ∨ strle b a := lexLe_total a.toList b.toList

theorem strle_trans {a b c : String} (h1 : strle a b) (h2 : strle b c) : strle a c :=
  lexLe_trans h1 h2

theorem strle_antisymm {a b : String} (h1 : strle a b) (h2 : strle b a) : a = b := by
  cases a; cases b
  exact congrArg String.mk (lexLe_antisymm h1 h2)

theorem strle_refl (a : String) : strle a a := (strle_total a a).elim id id

theorem foldl_maxBy_spec (le : α → α → Prop) [DecidableRel le]
    (htot : ∀ a b, le a b ∨ le b a) (htrans : ∀ {a b c}, le a b → le b c → le a c)
    (l : List α) : ∀ a : α,
      (l.foldl (fun acc x => if le acc x then x else acc) a = a ∨
        l.foldl (fun acc x => if le acc x then x else acc) a ∈ l) ∧
      le a (l.foldl (fun acc x => if le acc x then x else acc) a) ∧
      ∀ x ∈ l, le x (l.foldl (fun acc x => if le acc x then x else acc) a) := by
  induction l with
  | nil =>
    intro a
    exact ⟨Or.inl rfl, (htot a a).elim id id, fun x hx => absurd hx (List.not_mem_nil x)⟩
  | cons b t ih =>
    intro a
    simp only [List.foldl_cons]
    by_cases hab : le a b
    · rw [if_pos hab]
      rcases ih b with ⟨hmem, hle, hall⟩
      refine ⟨?_, htrans hab hle, ?_⟩
      · rcases hmem with h | h
        · exact Or.inr (by rw [h]; exact List.mem_cons_self _ _)
        · exact Or.inr (List.mem_cons_of_mem _ h)
      · intro x hx
        rcases List.mem_cons.mp hx with rfl | hx
        · exact hle
        · exact hall x hx
    · rw [if_neg hab]
      rcases ih a with ⟨hmem, hle, hall⟩
      refine ⟨?_, hle, ?_⟩
      · rcases hmem with h | h
        · exact Or.inl h
        · exact Or.inr (List.mem_cons_of_mem _ h)
      · intro x hx
        rcases List.mem_cons.mp hx with rfl | hx
        · exact htrans (Or.resolve_right (htot x a) hab) hle
        · exact hall x hx

theorem listMaxBy_mem {le : α → α → Prop} [DecidableRel le]
    (htot : ∀ a b, le a b ∨ le b a) (htrans : ∀ {a b c}, le a b → le b c → le a c)
    {l : List α} {m : α} (h : listMaxBy le l = some m) : m ∈ l := by
  cases l with
  | nil => simp [listMaxBy] at h
  | cons a t =>
    simp only [listMaxBy, Option.some.injEq] at h
    rcases (foldl_maxBy_spec le htot htrans t a).1 with h2 | h2
    · rw [← h, h2]; exact List.mem_cons_self _ _
    · rw [← h]; exact List.mem_cons_of_mem _ h2

theorem le_listMaxBy {le : α → α → Prop} [DecidableRel le]
    (htot : ∀ a b, le a b ∨ le b a) (htrans : ∀ {a b c}, le a b → le b c → le a c)
    {l : List α} {m x : α} (h : listMaxBy le l = some m) (hx : x ∈ l) : le x m := by
  cases l with
  | nil => simp at hx
  | cons a t =>
    simp only [listMaxBy, Option.some.injEq] at h
    rcases List.mem_cons.mp hx with rfl | hx
    · rw [← h]; exact (foldl_maxBy_spec le htot htrans t x).2.1
    · rw [← h]; exact (foldl_maxBy_spec le htot htrans t a).2.2 x hx

theorem listMaxBy_isSome {le : α → α → Prop} [DecidableRel le]
    {l : List α} (h : l ≠ []) : ∃ m, listMaxBy le l = some m := by
  cases l with
  | nil => exact absurd rfl h
  | cons a t => exact ⟨_, rfl⟩

theorem dropWhile_eq_self_of {p : α → Bool} {l : List α}
    (h : ∀ c ∈ l, p c = false) : l.dropWhile p = l := by
  cases l with
  | nil => rfl
  | cons a t => simp [List.dropWhile_cons, h a (List.mem_cons_self _ _)]

theorem map_eq_self_of {f : α → α} {l : List α}
    (h : ∀ x ∈ l, f x = x) : l.map f = l := by
  induction l with
  | nil => rfl
  | cons a t ih =>
    simp only [List.map_cons, h a (List.mem_cons_self _ _), List.cons.injEq, true_and]
    exact ih fun x hx => h x (List.mem_cons_of_mem _ hx)

theorem pairwise_flatMap {R : β → β → Prop} {f : α → List β} {l : List α}
    (hl : l.Pairwise fun m1 m2 => ∀ a ∈ f m1, ∀ b ∈ f m2, R a b)
    (hf : ∀ m ∈ l, (f m).Pairwise R) : (l.flatMap f).Pairwise R := by
  induction l with
  | nil => exact List.Pairwise.nil
  | cons a t ih =>
    rw [List.flatMap_cons]
    rcases List.pairwise_cons.mp hl with ⟨ha, ht⟩
    refine List.pairwise_append.mpr ⟨hf a (List.mem_cons_self _ _), ?_, ?_⟩
    · exact ih ht fun m hm => hf m (List.mem_cons_of_mem _ hm)
    · intro x hx y hy
      rcases List.mem_flatMap.mp hy with ⟨m, hm, hym⟩
      exact ha m hm x hx y hym

theorem isCodeChar_toNat {c : Char} (h : isCodeChar c = true) :
    (65 ≤ c.toNat ∧ c.toNat ≤ 90) ∨ (48 ≤ c.toNat ∧ c.toNat ≤ 57) := by
  simp only [isCodeChar, Bool.or_eq_true, Bool.and_eq_true, decide_eq_true_eq] at h
  exact h

theorem isCodeChar_not_whitespace {c : Char} (h : isCodeChar c = true) :
    c.isWhitespace = false := by
  rcases isCodeChar_toNat h with ⟨h1, _⟩ | ⟨h1, _⟩ <;>
  · simp only [Char.isWhitespace, Bool.or_eq_false_iff, decide_eq_false_iff_not]
    refine ⟨⟨⟨?_, ?_⟩, ?_⟩, ?_⟩ <;> (rintro rfl; revert h1; decide)

theorem isCodeChar_toUpper {c : Char} (h : isCodeChar c = true) : c.toUpper = c := by
  have h2 : ¬ (97 ≤ c.toNat ∧ c.toNat ≤ 122) := by
    rcases isCodeChar_toNat h with ⟨_, h1⟩ | ⟨_, h1⟩ <;> omega
  simp only [Char.toUpper]
  rw [if_neg h2]

theorem pyStrip_eq_self_of {l : List Char} (h : ∀ c ∈ l, c.isWhitespace = false) :
    pyStrip l = l := by
  unfold pyStrip
  rw [dropWhile_eq_self_of h,
    dropWhile_eq_self_of (fun c hc => h c (List.mem_reverse.mp hc)), List.reverse_reverse]

/-! ### Lemmas on the latest-metrics query -/

theorem mem_playerRows {rows : List MetricRow} {pid : Nat} {r : MetricRow} :
    r ∈ playerRows rows pid ↔ r ∈ rows ∧ r.player_id = pid := by
  simp [playerRows, List.mem_filter]

theorem mem_metricGroup {rows : List MetricRow} {pid : Nat} {m : String} {r : MetricRow} :
    r ∈ metricGroup rows pid m ↔ r ∈ rows ∧ r.player_id = pid ∧ r.metric = m := by
  simp [metricGroup, List.mem_filter, mem_playerRows, and_assoc]

theorem mem_sortedNames {rows : List MetricRow} {pid : Nat} {m : String} :
    m ∈ sortedNames rows pid ↔ ∃ r ∈ rows, r.player_id = pid ∧ r.metric = m := by
  simp only [sortedNames, List.mem_insertionSort, List.mem_dedup, List.mem_map, mem_playerRows]
  constructor
  · rintro ⟨r, ⟨hr, hpid⟩, rfl⟩
    exact ⟨r, hr, hpid, rfl⟩
  · rintro ⟨r, hr, hpid, rfl⟩
    exact ⟨r, ⟨hr, hpid⟩, rfl⟩

theorem mem_latestBy {α : Type} {key : MetricRow → α} {le : α → α → Prop} [DecidableRel le]
    [BEq α] [LawfulBEq α]
    (htot : ∀ a b, le a b ∨ le b a) (htrans : ∀ {a b c}, le a b → le b c → le a c)
    (hanti : ∀ {a b}, le a b → le b a → a = b)
    (rows : List MetricRow) (pid : Nat) (r : MetricRow) :
    r ∈ latestBy key le rows pid ↔
      r ∈ rows ∧ r.player_id = pid ∧
        ∀ q ∈ rows, q.player_id = pid → q.metric = r.metric → le (key q) (key r) := by
  unfold latestBy
  rw [List.mem_flatMap]
  constructor
  · rintro ⟨m, _, hr⟩
    rcases List.mem_filter.mp hr with ⟨hgrp, hpred⟩
    rcases mem_metricGroup.mp hgrp with ⟨hrows, hpid, hmet⟩
    have hmax : listMaxBy le ((metricGroup rows pid m).map key) = some (key r) :=
      beq_iff_eq.mp hpred
    refine ⟨hrows, hpid, fun q hq hqpid hqmet => ?_⟩
    have hq2 : q ∈ metricGroup rows pid m := mem_metricGroup.mpr ⟨hq, hqpid, hqmet.trans hmet⟩
    exact le_listMaxBy htot htrans hmax (List.mem_map_of_mem key hq2)
  · rintro ⟨hrows, hpid, hall⟩
    refine ⟨r.metric, mem_sortedNames.mpr ⟨r, hrows, hpid, rfl⟩, ?_⟩
    have hgrp : r ∈ metricGroup rows pid r.metric := mem_metricGroup.mpr ⟨hrows, hpid, rfl⟩
    rcases @listMaxBy_isSome _ le _ _
        (List.ne_nil_of_mem (List.mem_map_of_mem key hgrp)) with ⟨mx, hmx⟩
    rcases List.mem_map.mp (listMaxBy_mem htot htrans hmx) with ⟨q, hq, rfl⟩
    rcases mem_metricGroup.mp hq with ⟨hq1, hq2, hq3⟩
    have h1 : le (key q) (key r) := hall q hq1 hq2 hq3
    have h2 : le (key r) (key q) := le_listMaxBy htot htrans hmx (List.mem_map_of_mem key hgrp)
    refine List.mem_filter.mpr ⟨hgrp, ?_⟩
    rw [hmx, hanti h1 h2]
    exact beq_self_eq_true _

theorem metric_of_mem_latestBy_block {α : Type} {key : MetricRow → α} {le : α → α → Prop}
    [DecidableRel le] [BEq α] {rows : List MetricRow} {pid : Nat} {m : String} {r : MetricRow}
    (h : r ∈ (let grp := metricGroup rows pid m
      grp.filter fun r => listMaxBy le (grp.map key) == some (key r))) :
    r.metric = m :=
  (mem_metricGroup.mp (List.mem_filter.mp h).1).2.2

theorem pairwise_latestBy {α : Type} {key : MetricRow → α} {le : α → α → Prop}
    [DecidableRel le] [BEq α] (rows : List MetricRow) (pid : Nat) :
    (latestBy key le rows pid).Pairwise fun a b => strle a.metric b.metric := by
  unfold latestBy
  haveI : IsTotal String strle := ⟨strle_total⟩
  haveI : IsTrans String strle := ⟨fun _ _ _ => strle_trans⟩
  have hs : (sortedNames rows pid).Pairwise strle := by
    unfold sortedNames
    exact List.sorted_insertionSort strle _
  refine pairwise_flatMap (hs.imp ?_) ?_
  · intro m1 m2 h12 a ha b hb
    rw [metric_of_mem_latestBy_block ha, metric_of_mem_latestBy_block hb]
    exact h12
  · intro m _
    refine List.pairwise_of_forall_mem_list fun a ha b hb => ?_
    rw [metric_of_mem_latestBy_block ha, metric_of_mem_latestBy_block hb]
    exact strle_refl m

theorem latestBy_names {α : Type} {key : MetricRow → α} {le : α → α → Prop} [DecidableRel le]
    [BEq α] [LawfulBEq α]
    (htot : ∀ a b, le a b ∨ le b a) (htrans : ∀ {a b c}, le a b → le b c → le a c)
    (rows : List MetricRow) (pid : Nat) (m : String) :
    (∃ r ∈ latestBy key le rows pid, r.metric = m) ↔
      ∃ r ∈ rows, r.player_id = pid ∧ r.metric = m := by
  constructor
  · rintro ⟨r, hr, rfl⟩
    unfold latestBy at hr
    rcases List.mem_flatMap.mp hr with ⟨m2, _, hblock⟩
    rcases mem_metricGroup.mp (List.mem_filter.mp hblock).1 with ⟨h1, h2, _⟩
    exact ⟨r, h1, h2, rfl⟩
  · rintro ⟨r, hr, hpid, rfl⟩
    have hgrp : r ∈ metricGroup rows pid r.metric := mem_metricGroup.mpr ⟨hr, hpid, rfl⟩
    rcases @listMaxBy_isSome _ le _ _
        (List.ne_nil_of_mem (List.mem_map_of_mem key hgrp)) with ⟨mx, hmx⟩
    rcases List.mem_map.mp (listMaxBy_mem htot htrans hmx) with ⟨q, hq, rfl⟩
    rcases mem_metricGroup.mp hq with ⟨hq1, hq2, hq3⟩
    refine ⟨q, ?_, hq3⟩
    unfold latestBy
    refine List.mem_flatMap.mpr ⟨r.metric, mem_sortedNames.mpr ⟨r, hr, hpid, rfl⟩, ?_⟩
    refine List.mem_filter.mpr ⟨hq, ?_⟩
    rw [hmx]
    exact beq_self_eq_true _

/-! ### Lemmas on the schema reconciler -/

theorem addCol_not_mem {dialect : String} {cols : Finset String} {c : String}
    (h : c ∉ cols) : addCol dialect cols c = .ok (insert c cols) := by
  unfold addCol
  by_cases hd : dialect = "postgresql"
  · rw [if_pos hd]
  · rw [if_neg hd, if_neg h]

theorem addCol_postgres (cols : Finset String) (c : String) :
    addCol "postgresql" cols c = .ok (insert c cols) := by
  unfold addCol
  rw [if_pos rfl]

theorem addMissing_subset_ok (dialect : String) (snap : Finset String) (l : List String)
    (cols : Finset String) (h : ∀ n ∈ l, n ∈ snap) :
    addMissing dialect snap l cols = .ok (cols, []) := by
  induction l with
  | nil => rfl
  | cons n rest ih =>
    unfold addMissing
    rw [if_pos (h n (List.mem_cons_self _ _))]
    exact ih fun m hm => h m (List.mem_cons_of_mem _ hm)

theorem addMissing_fresh_ok (dialect : String) (snap : Finset String) :
    ∀ (l : List String) (cols : Finset String), l.Nodup →
      (∀ n ∈ l, n ∉ snap → n ∉ cols) →
      addMissing dialect snap l cols =
        .ok (cols ∪ (l.filter fun n => decide (n ∉ snap)).toFinset,
          l.filter fun n => decide (n ∉ snap)) := by
  intro l
  induction l with
  | nil => intro cols _ _; simp [addMissing]
  | cons n rest ih =>
    intro cols hnd h
    rcases List.nodup_cons.mp hnd with ⟨hn, hrest⟩
    unfold addMissing
    by_cases hmem : n ∈ snap
    · rw [if_pos hmem, ih cols hrest fun m hm => h m (List.mem_cons_of_mem _ hm)]
      simp [List.filter_cons, hmem]
    · rw [if_neg hmem, addCol_not_mem (h n (List.mem_cons_self _ _) hmem)]
      dsimp only
      rw [ih (insert n cols) hrest ?hyp]
      case hyp =>
        intro m hm hms
        rw [Finset.mem_insert]
        rintro (rfl | hmc)
        · exact hn hm
        · exact h m (List.mem_cons_of_mem _ hm) hms hmc
      have hfil : (n :: rest).filter (fun n => decide (n ∉ snap)) =
          n :: rest.filter fun n => decide (n ∉ snap) := by
        simp [List.filter_cons, hmem]
      rw [hfil]
      simp only [List.toFinset_cons, Finset.union_insert, Finset.insert_union]

theorem addMissing_postgres_ok (snap : Finset String) :
    ∀ (l : List String) (cols : Finset String),
      addMissing "postgresql" snap l cols =
        .ok (cols ∪ (l.filter fun n => decide (n ∉ snap)).toFinset,
          l.filter fun n => decide (n ∉ snap)) := by
  intro l
  induction l with
  | nil => intro cols; simp [addMissing]
  | cons n rest ih =>
    intro cols
    unfold addMissing
    by_cases hmem : n ∈ snap
    · rw [if_pos hmem, ih cols]
      simp [List.filter_cons, hmem]
    · rw [if_neg hmem, addCol_postgres]
      dsimp only
      rw [ih (insert n cols)]
      have hfil : (n :: rest).filter (fun n => decide (n ∉ snap)) =
          n :: rest.filter fun n => decide (n ∉ snap) := by
        simp [List.filter_cons, hmem]
      rw [hfil]
      simp only [List.toFinset_cons, Finset.union_insert, Finset.insert_union]

theorem union_filter_not_mem (cols : Finset String) (l : List String) :
    cols ∪ (l.filter fun n => decide (n ∉ cols)).toFinset = cols ∪ l.toFinset := by
  ext a
  simp only [Finset.mem_union, List.mem_toFinset, List.mem_filter, decide_eq_true_eq]
  constructor
  · rintro (h | ⟨h, _⟩)
    · exact Or.inl h
    · exact Or.inr h
  · rintro (h | h)
    · exact Or.inl h
    · by_cases hc : a ∈ cols
      · exact Or.inl hc
      · exact Or.inr ⟨h, hc⟩

theorem ensure_schema_ok (st : DBState) (hfail : st.failing = []) :
    ensure_schema st = .ok (reconciled st, addedLog st) := by
  unfold ensure_schema
  simp only [colsOf, hfail, List.not_mem_nil, if_false, if_pos, if_true, String.reduceEq, reduceIte]
  rw [addMissing_fresh_ok st.dialect st.instructors instructorsExpected st.instructors
    (by decide) (fun n _ h => h)]
  dsimp only
  rw [addMissing_fresh_ok st.dialect st.players playersExpected st.players
    (by decide) (fun n _ h => h)]
  dsimp only
  rw [addMissing_fresh_ok st.dialect st.metrics metricsExpected st.metrics
    (by decide) (fun n _ h => h)]
  dsimp only
  rw [addMissing_fresh_ok st.dialect st.notes notesExpected st.notes
    (by decide) (fun n _ h => h)]
  dsimp only
  rw [addMissing_fresh_ok st.dialect st.drill_assignments drillsExpected st.drill_assignments
    (by decide) (fun n _ h => h)]
  dsimp only
  rw [union_filter_not_mem st.instructors instructorsExpected,
    union_filter_not_mem st.players playersExpected,
    union_filter_not_mem st.metrics metricsExpected,
    union_filter_not_mem st.notes notesExpected,
    union_filter_not_mem st.drill_assignments drillsExpected]
  have hrec : "recorded_at" ∈ st.metrics ∪ metricsExpected.toFinset := by
    refine Finset.mem_union_right _ ?_
    simp [metricsExpected]
  rw [if_pos hrec]
  simp only [reconciled, addedLog, hfail]

theorem backRow_fix {r : BackRow} {d : String} (h : r.recorded_at.isSome = true) :
    ({ r with recorded_at := some (r.recorded_at.getD d) } : BackRow) = r := by
  cases r with
  | mk ra ca =>
    cases ra with
    | none => simp at h
    | some v => rfl

theorem reconciled_rows_isSome (st : DBState) :
    ∀ x ∈ (reconciled st).metricsRows, x.recorded_at.isSome = true := by
  intro x hx
  unfold reconciled at hx
  dsimp only at hx
  by_cases hc : "created_at" ∈ st.metrics ∪ metricsExpected.toFinset
  · rw [if_pos hc] at hx
    rcases List.mem_map.mp hx with ⟨y, _, rfl⟩
    rfl
  · rw [if_neg hc] at hx
    rcases List.mem_map.mp hx with ⟨y, _, rfl⟩
    rfl

theorem reconciled_idem (st : DBState) : reconciled (reconciled st) = reconciled st := by
  unfold reconciled
  dsimp only
  have hu : ∀ s : Finset String, ∀ E : List String,
      (s ∪ E.toFinset) ∪ E.toFinset = s ∪ E.toFinset := by
    intro s E
    rw [Finset.union_assoc, Finset.union_self]
  rw [hu, hu, hu, hu, hu]
  have hmap : ∀ rows2 : List BackRow, (∀ x ∈ rows2, x.recorded_at.isSome = true) →
      (if "created_at" ∈ st.metrics ∪ metricsExpected.toFinset then
        rows2.map fun r =>
          { r with recorded_at := some (r.recorded_at.getD (r.created_at.getD st.now)) }
      else rows2.map fun r => { r with recorded_at := some (r.recorded_at.getD st.now) }) =
        rows2 := by
    intro rows2 hsome
    by_cases hc : "created_at" ∈ st.metrics ∪ metricsExpected.toFinset
    · rw [if_pos hc]
      exact map_eq_self_of fun x hx => backRow_fix (hsome x hx)
    · rw [if_neg hc]
      exact map_eq_self_of fun x hx => backRow_fix (hsome x hx)
  rw [hmap _ ?hsome]
  case hsome =>
    intro x hx
    refine reconciled_rows_isSome st x ?_
    unfold reconciled
    dsimp only
    exact hx

theorem addedLog_reconciled (st : DBState) : addedLog (reconciled st) = [] := by
  unfold addedLog reconciled
  dsimp only
  have hf : ∀ (E : List String) (s : Finset String),
      E.filter (fun n => decide (n ∉ s ∪ E.toFinset)) = [] := by
    intro E s
    refine List.filter_eq_nil_iff.mpr fun n hn => ?_
    simp [List.mem_toFinset.mpr hn]
  rw [hf, hf, hf, hf, hf]
  rfl

theorem ensure_schema_postgres (st : DBState) (hd : st.dialect = "postgresql") :
    ∃ p : DBState × List String, ensure_schema st = .ok p ∧
      ("metrics" ∈ st.failing → ∀ n ∈ metricsExpected, ("metrics." ++ n) ∈ p.2) := by
  unfold ensure_schema
  rw [hd]
  dsimp only
  rw [addMissing_postgres_ok (colsOf st "instructors") instructorsExpected st.instructors]
  dsimp only
  rw [addMissing_postgres_ok (colsOf st "players") playersExpected st.players]
  dsimp only
  rw [addMissing_postgres_ok (colsOf st "metrics") metricsExpected st.metrics]
  dsimp only
  rw [addMissing_postgres_ok (colsOf st "notes") notesExpected st.notes]
  dsimp only
  rw [addMissing_postgres_ok _ drillsExpected st.drill_assignments]
  dsimp only
  refine ⟨_, rfl, ?_⟩
  intro hfm n hn
  have hcm : colsOf st "metrics" = ∅ := by
    unfold colsOf
    rw [if_pos hfm]
  rw [hcm]
  have hfil : metricsExpected.filter (fun n => decide (n ∉ (∅ : Finset String))) =
      metricsExpected := by
    refine List.filter_eq_self.mpr fun a _ => ?_
    simp
  rw [hfil]
  refine List.mem_append_left _ ?_
  refine List.mem_append_left _ ?_
  refine List.mem_append_left _ ?_
  refine List.mem_append_right _ ?_
  exact List.mem_map_of_mem _ hn

/-! ### Lemmas on the chart series -/

theorem mem_chartMine {rows : List MetricRow} {pid : Nat} {r : MetricRow} :
    r ∈ chartMine rows pid ↔ r ∈ rows ∧ r.player_id = pid := by
  unfold chartMine sortByRecordedAt
  rw [List.mem_insertionSort]
  simp [List.mem_filter]

theorem lastValueOn_eq_none {mine : List MetricRow} {m d : String} :
    lastValueOn mine m d = none ↔
      ∀ r ∈ mine, ¬(normName r.metric = m ∧ dayLabel r.recorded_at = d) := by
  unfold lastValueOn
  rw [Option.map_eq_none', List.getLast?_eq_none_iff, List.filter_eq_nil_iff]
  constructor
  · intro h r hr hrd
    exact h r hr (by simp [hrd.1, hrd.2])
  · intro h r hr hp
    simp only [Bool.and_eq_true, beq_iff_eq] at hp
    exact h r hr ⟨hp.1, hp.2⟩

theorem lastValueOn_eq_some {mine : List MetricRow} {m d : String} {v : ℚ}
    (h : lastValueOn mine m d = some v) :
    ∃ r ∈ mine, normName r.metric = m ∧ dayLabel r.recorded_at = d ∧ r.value = v := by
  unfold lastValueOn at h
  rcases Option.map_eq_some'.mp h with ⟨r, hr, hrv⟩
  have hmem := List.mem_of_mem_getLast? hr
  rcases List.mem_filter.mp hmem with ⟨h1, h2⟩
  simp only [Bool.and_eq_true, beq_iff_eq] at h2
  exact ⟨r, h1, h2.1, h2.2, hrv⟩

theorem firstDedupAux_length_le [DecidableEq α] (seen : List α) :
    ∀ l : List α, (firstDedupAux seen l).length ≤ l.length := by
  intro l
  induction l generalizing seen with
  | nil => exact le_refl _
  | cons a t ih =>
    unfold firstDedupAux
    by_cases h : a ∈ seen
    · rw [if_pos h]
      exact le_trans (ih seen) (Nat.le_succ _)
    · rw [if_neg h]
      simpa using ih (a :: seen)

theorem firstDedup_length_le [DecidableEq α] (l : List α) :
    (firstDedup l).length ≤ l.length := firstDedupAux_length_le [] l

/-! ### Claim theorems -/

/-- Claim C9: `normalize_code` is idempotent and canonicalizing — for
every string, the result contains only uppercase ASCII letters and
digits, normalizing twice equals normalizing once, and `None` maps to the
empty string. -/
theorem normalize_code_canonical :
    (∀ s : String,
      (∀ c ∈ (normalize_code (some s)).toList,
        ('A' ≤ c ∧ c ≤ 'Z') ∨ ('0' ≤ c ∧ c ≤ '9')) ∧
      normalize_code (some (normalize_code (some s))) = normalize_code (some s))
    ∧ normalize_code none = "" := by
  refine ⟨fun s => ⟨?_, ?_⟩, rfl⟩
  · intro c hc
    have hcode : isCodeChar c = true := by
      have h2 : c ∈ ((pyStrip s.toList).map Char.toUpper).filter isCodeChar := hc
      exact (List.mem_filter.mp h2).2
    rcases isCodeChar_toNat hcode with ⟨h1, h2⟩ | ⟨h1, h2⟩
    · exact Or.inl ⟨by rw [Char.le_def]; exact h1, by rw [Char.le_def]; exact h2⟩
    · exact Or.inr ⟨by rw [Char.le_def]; exact h1, by rw [Char.le_def]; exact h2⟩
  · have hall : ∀ c ∈ ((pyStrip s.toList).map Char.toUpper).filter isCodeChar,
        isCodeChar c = true := fun c hc => (List.mem_filter.mp hc).2
    show String.mk _ = String.mk _
    refine congrArg String.mk ?_
    rw [show (normalize_code (some s)).toList =
      ((pyStrip s.toList).map Char.toUpper).filter isCodeChar from rfl]
    rw [pyStrip_eq_self_of fun c hcm => isCodeChar_not_whitespace (hall c hcm)]
    rw [map_eq_self_of fun c hcm => isCodeChar_toUpper (hall c hcm)]
    exact List.filter_eq_self.mpr hall

/-- Claim C9 witness: the docstring example of `normalize_code`, its
idempotence, and the `None` case, at concrete inputs. -/
theorem normalize_code_canonical_witness :
    normalize_code (some " P-Qd5 tiv ") = "PQD5TIV" ∧
      normalize_code (some (normalize_code (some " P-Qd5 tiv "))) =
        normalize_code (some " P-Qd5 tiv ") ∧
      normalize_code none = "" :=
  ⟨by decide, (normalize_code_canonical.1 " P-Qd5 tiv ").2, normalize_code_canonical.2⟩

/-- Claim C10: `percent_delta` never divides by zero — it returns `None`
exactly when the value is `None` or the reference is `None` or `0`, and
otherwise returns `(value - reference) / reference`. -/
theorem percent_delta_safe :
    (∀ value reference : Option ℚ,
      percent_delta value reference = none ↔
        value = none ∨ reference = none ∨ reference = some 0)
    ∧ ∀ v r : ℚ, r ≠ 0 → percent_delta (some v) (some r) = some ((v - r) / r) := by
  constructor
  · intro value reference
    match value, reference with
    | none, _ => simp [percent_delta]
    | some v, none => simp [percent_delta]
    | some v, some r =>
      by_cases hr : r = 0
      · subst hr; simp [percent_delta]
      · simp [percent_delta, hr]
  · intro v r hr
    simp [percent_delta, hr]

/-- Claim C10 witness: a 10% gain over a non-zero reference. -/
theorem percent_delta_safe_witness :
    ((110 : ℚ) ≠ 0) ∧ percent_delta (some 121) (some 110) = some ((121 - 110) / 110) :=
  ⟨by norm_num, percent_delta_safe.2 121 110 (by norm_num)⟩

/-- Claim C5: for a player id with no metric rows, both the latest-metrics
query and the chart-series computation return empty collections (and, the
functions being total, no error is raised). -/
theorem empty_player_queries (rows : List MetricRow) (pid : Nat) (b : Bool)
    (h : ∀ r ∈ rows, r.player_id ≠ pid) :
    latest_metrics_query b rows pid = [] ∧ chart_series rows pid = ([], [], [], []) := by
  have hfil : rows.filter (fun r => r.player_id == pid) = [] := by
    refine List.filter_eq_nil_iff.mpr fun r hr => ?_
    simpa using h r hr
  have hnames : sortedNames rows pid = [] := by
    unfold sortedNames playerRows
    rw [hfil]
    rfl
  constructor
  · cases b
    · show latestById rows pid = []
      unfold latestById latestBy
      rw [hnames]
      rfl
    · show latestByTimestamp rows pid = []
      unfold latestByTimestamp latestBy
      rw [hnames]
      rfl
  · unfold chart_series chartLabels chartMine sortByRecordedAt
    rw [hfil]
    rfl

/-- Claim C5 witness: player id 999 references no row of `sampleRows`;
both reads are empty. -/
theorem empty_player_queries_witness :
    (∀ r ∈ sampleRows, r.player_id ≠ 999) ∧
      latest_metrics_query true sampleRows 999 = [] ∧
      chart_series sampleRows 999 = ([], [], [], []) :=
  ⟨by decide, empty_player_queries sampleRows 999 true (by decide)⟩

/-- Claim C7 counterexample: `_chart_series` accepts no caller-supplied
limit, so the claimed bound fails already at limit N = 1 — for
`sampleRows` (two distinct day labels) the returned sequence has 2
entries, which no caller-supplied cap can reduce. -/
theorem chart_series_no_limit_counterexample :
    ¬ ((chart_series sampleRows 7).1.length ≤ 1) := by decide

/-- Claim C7 (amended): `_chart_series` takes no limit argument; its
result is nevertheless finite, never unbounded relative to the data: the
label list is capped by the number of the player's metric rows, and each
of the three series is exactly as long as the label list. -/
theorem chart_series_bounded (rows : List MetricRow) (pid : Nat) :
    (chart_series rows pid).1.length ≤ rows.length ∧
      (chart_series rows pid).2.1.length = (chart_series rows pid).1.length ∧
      (chart_series rows pid).2.2.1.length = (chart_series rows pid).1.length ∧
      (chart_series rows pid).2.2.2.length = (chart_series rows pid).1.length := by
  refine ⟨?_, ?_, ?_, ?_⟩
  · show (chartLabels rows pid).length ≤ rows.length
    unfold chartLabels
    refine le_trans (firstDedup_length_le _) ?_
    rw [List.length_map]
    unfold chartMine sortByRecordedAt
    rw [(List.perm_insertionSort _ _).length_eq]
    exact List.length_filter_le _ _
  · show ((chartLabels rows pid).map
        fun d => lastValueOn (chartMine rows pid) "exit_velocity" d).length =
      (chartLabels rows pid).length
    exact List.length_map _ _
  · show ((chartLabels rows pid).map
        fun d => lastValueOn (chartMine rows pid) "launch_angle" d).length =
      (chartLabels rows pid).length
    exact List.length_map _ _
  · show ((chartLabels rows pid).map
        fun d => lastValueOn (chartMine rows pid) "spin_rate" d).length =
      (chartLabels rows pid).length
    exact List.length_map _ _

/-- Claim C2, evaluation at the failing input: two rows for player 3 with
the identical maximal `recorded_at` and ids 5 and 6 — the join of the
`MAX(recorded_at)` subquery keeps every tied row, so the query returns
BOTH rows for the single metric name, not a single deterministically
chosen one.  (Repeated evaluation is deterministic — the embedding is a
pure function — but the single-row part of the claim fails.) -/
theorem latest_metrics_tie_returns_both :
    ((latest_metrics_query true tieRows2 3).map fun r => r.id) = [5, 6] ∧
      ¬ ((latest_metrics_query true tieRows2 3).length = 1) :=
  ⟨by decide, by decide⟩

/-- Claim C1 counterexample: with two rows of one metric name sharing the
maximal `recorded_at`, the query returns two rows for the one distinct
metric name — not exactly one row per name. -/
theorem latest_metrics_query_counterexample :
    ((latest_metrics_query true tieRows 7).map fun r => r.metric) =
        ["exit_velocity", "exit_velocity"] ∧
      (tieRows.map fun r => r.metric).dedup = ["exit_velocity"] :=
  ⟨by decide, by decide⟩

/-- Claim C1 (amended): for every player id and row set, the
`recorded_at` branch of the query returns exactly the rows of the player
whose `recorded_at` is maximal within their metric-name group — one row
per name when the maximum is uniquely attained, and all tied rows
(sharing the one maximal timestamp) otherwise; the fallback branch does
the same with `MAX(id)` and returns exactly one row per name when ids are
distinct; every metric name with at least one row for the player is
represented; and both results are ordered by metric name ascending. -/
theorem latest_metrics_query_spec (rows : List MetricRow) (pid : Nat) :
    (∀ r, r ∈ latest_metrics_query true rows pid ↔
        r ∈ rows ∧ r.player_id = pid ∧
          ∀ q ∈ rows, q.player_id = pid → q.metric = r.metric →
            strle q.recorded_at r.recorded_at) ∧
    (∀ r, r ∈ latest_metrics_query false rows pid ↔
        r ∈ rows ∧ r.player_id = pid ∧
          ∀ q ∈ rows, q.player_id = pid → q.metric = r.metric → q.id ≤ r.id) ∧
    ((latest_metrics_query true rows pid).Pairwise fun a b => strle a.metric b.metric) ∧
    ((latest_metrics_query false rows pid).Pairwise fun a b => strle a.metric b.metric) ∧
    (∀ m, (∃ r ∈ latest_metrics_query true rows pid, r.metric = m) ↔
        ∃ r ∈ rows, r.player_id = pid ∧ r.metric = m) ∧
    (∀ r ∈ latest_metrics_query true rows pid, ∀ q ∈ latest_metrics_query true rows pid,
        r.metric = q.metric → r.recorded_at = q.recorded_at) ∧
    ((rows.map fun r => r.id).Nodup →
      ∀ r ∈ latest_metrics_query false rows pid, ∀ q ∈ latest_metrics_query false rows pid,
        r.metric = q.metric → r = q) := by
  have charT : ∀ r, r ∈ latestByTimestamp rows pid ↔
      r ∈ rows ∧ r.player_id = pid ∧
        ∀ q ∈ rows, q.player_id = pid → q.metric = r.metric →
          strle q.recorded_at r.recorded_at :=
    fun r => @mem_latestBy String (fun r => r.recorded_at) strle _ _ _ strle_total
      (fun h1 h2 => strle_trans h1 h2) (fun h1 h2 => strle_antisymm h1 h2) rows pid r
  have charI : ∀ r, r ∈ latestById rows pid ↔
      r ∈ rows ∧ r.player_id = pid ∧
        ∀ q ∈ rows, q.player_id = pid → q.metric = r.metric → q.id ≤ r.id :=
    fun r => @mem_latestBy Nat (fun r => r.id) (fun a b => a ≤ b) _ _ _
      (fun a b => Nat.le_total a b) (fun h1 h2 => le_trans h1 h2)
      (fun h1 h2 => Nat.le_antisymm h1 h2) rows pid r
  refine ⟨charT, charI, pairwise_latestBy rows pid, pairwise_latestBy rows pid, ?_, ?_, ?_⟩
  · intro m
    exact @latestBy_names String (fun r => r.recorded_at) strle _ _ _ strle_total
      (fun h1 h2 => strle_trans h1 h2) rows pid m
  · intro r hr q hq hmet
    rcases (charT r).mp hr with ⟨hr1, hr2, hrmax⟩
    rcases (charT q).mp hq with ⟨hq1, hq2, hqmax⟩
    exact strle_antisymm (hqmax r hr1 hr2 hmet) (hrmax q hq1 hq2 hmet.symm)
  · intro hnodup r hr q hq hmet
    rcases (charI r).mp hr with ⟨hr1, hr2, hrmax⟩
    rcases (charI q).mp hq with ⟨hq1, hq2, hqmax⟩
    have hid : r.id = q.id :=
      Nat.le_antisymm (hqmax r hr1 hr2 hmet) (hrmax q hq1 hq2 hmet.symm)
    exact List.inj_on_of_nodup_map hnodup hr1 hq1 hid

/-- Claim C1 witness: on `sampleRows`, the row with id 2 is the latest
exit-velocity row of player 7. -/
theorem latest_metrics_query_spec_witness :
    (⟨2, 7, "exit_velocity", 91, some "mph", "2024-05-03 09:00:00", some "instructor",
        some 1, none⟩ : MetricRow) ∈ latest_metrics_query true sampleRows 7 ∧
      ((sampleRows.map fun r => r.id).Nodup →
        ∀ r ∈ latest_metrics_query false sampleRows 7,
          ∀ q ∈ latest_metrics_query false sampleRows 7, r.metric = q.metric → r = q) :=
  ⟨((latest_metrics_query_spec sampleRows 7).1 _).mpr (by decide),
    (latest_metrics_query_spec sampleRows 7).2.2.2.2.2.2⟩

theorem series_entry_spec (rows : List MetricRow) (pid : Nat) (nm d : String) :
    (lastValueOn (chartMine rows pid) nm d = none ↔
      ¬ ∃ r ∈ rows, r.player_id = pid ∧ normName r.metric = nm ∧
          dayLabel r.recorded_at = d) ∧
    ∀ v : ℚ, lastValueOn (chartMine rows pid) nm d = some v →
      ∃ r ∈ rows, r.player_id = pid ∧ normName r.metric = nm ∧
        dayLabel r.recorded_at = d ∧ r.value = v := by
  constructor
  · rw [lastValueOn_eq_none]
    constructor
    · intro h
      rintro ⟨r, hr, hpid, hn, hd⟩
      exact h r (mem_chartMine.mpr ⟨hr, hpid⟩) ⟨hn, hd⟩
    · intro h r hrm hrd
      rcases mem_chartMine.mp hrm with ⟨hr, hpid⟩
      exact h ⟨r, hr, hpid, hrd.1, hrd.2⟩
  · intro v hv
    rcases lastValueOn_eq_some hv with ⟨r, hrm, h1, h2, h3⟩
    rcases mem_chartMine.mp hrm with ⟨hr, hpid⟩
    exact ⟨r, hr, hpid, h1, h2, h3⟩

/-- Claim C6: the three chart series are each exactly as long as the day
label list and aligned with it positionally — the entry at index `i` of a
metric's series is `none` exactly when the player has no row of that
metric whose day label is the `i`-th label (so a day with no row carries
the explicit absent marker, distinguishable from the value zero), and a
present entry carries the value of an actual row of that metric on that
day. -/
theorem chart_series_aligned (rows : List MetricRow) (pid : Nat) :
    ((chart_series rows pid).2.1.length = (chart_series rows pid).1.length ∧
      (chart_series rows pid).2.2.1.length = (chart_series rows pid).1.length ∧
      (chart_series rows pid).2.2.2.length = (chart_series rows pid).1.length) ∧
    (∀ i (h1 : i < (chart_series rows pid).1.length)
        (h2 : i < (chart_series rows pid).2.1.length),
      ((chart_series rows pid).2.1.get ⟨i, h2⟩ = none ↔
        ¬ ∃ r ∈ rows, r.player_id = pid ∧ normName r.metric = "exit_velocity" ∧
            dayLabel r.recorded_at = (chart_series rows pid).1.get ⟨i, h1⟩) ∧
      ∀ v : ℚ, (chart_series rows pid).2.1.get ⟨i, h2⟩ = some v →
        ∃ r ∈ rows, r.player_id = pid ∧ normName r.metric = "exit_velocity" ∧
          dayLabel r.recorded_at = (chart_series rows pid).1.get ⟨i, h1⟩ ∧ r.value = v) ∧
    (∀ i (h1 : i < (chart_series rows pid).1.length)
        (h2 : i < (chart_series rows pid).2.2.1.length),
      ((chart_series rows pid).2.2.1.get ⟨i, h2⟩ = none ↔
        ¬ ∃ r ∈ rows, r.player_id = pid ∧ normName r.metric = "launch_angle" ∧
            dayLabel r.recorded_at = (chart_series rows pid).1.get ⟨i, h1⟩) ∧
      ∀ v : ℚ, (chart_series rows pid).2.2.1.get ⟨i, h2⟩ = some v →
        ∃ r ∈ rows, r.player_id = pid ∧ normName r.metric = "launch_angle" ∧
          dayLabel r.recorded_at = (chart_series rows pid).1.get ⟨i, h1⟩ ∧ r.value = v) ∧
    (∀ i (h1 : i < (chart_series rows pid).1.length)
        (h2 : i < (chart_series rows pid).2.2.2.length),
      ((chart_series rows pid).2.2.2.get ⟨i, h2⟩ = none ↔
        ¬ ∃ r ∈ rows, r.player_id = pid ∧ normName r.metric = "spin_rate" ∧
            dayLabel r.recorded_at = (chart_series rows pid).1.get ⟨i, h1⟩) ∧
      ∀ v : ℚ, (chart_series rows pid).2.2.2.get ⟨i, h2⟩ = some v →
        ∃ r ∈ rows, r.player_id = pid ∧ normName r.metric = "spin_rate" ∧
          dayLabel r.recorded_at = (chart_series rows pid).1.get ⟨i, h1⟩ ∧ r.value = v) := by
  have hkey : ∀ (nm : String) (i : Nat) (h1 : i < (chartLabels rows pid).length)
      (h2 : i < ((chartLabels rows pid).map fun d =>
        lastValueOn (chartMine rows pid) nm d).length),
      ((chartLabels rows pid).map fun d =>
        lastValueOn (chartMine rows pid) nm d).get ⟨i, h2⟩ =
        lastValueOn (chartMine rows pid) nm ((chartLabels rows pid).get ⟨i, h1⟩) := by
    intro nm i h1 h2
    rw [List.get_eq_getElem, List.get_eq_getElem, List.getElem_map]
  refine ⟨⟨List.length_map _ _, List.length_map _ _, List.length_map _ _⟩, ?_, ?_, ?_⟩
  · intro i h1 h2
    have hg : (chart_series rows pid).2.1.get ⟨i, h2⟩ =
        lastValueOn (chartMine rows pid) "exit_velocity"
          ((chart_series rows pid).1.get ⟨i, h1⟩) := hkey "exit_velocity" i h1 h2
    rw [hg]
    exact series_entry_spec rows pid "exit_velocity" _
  · intro i h1 h2
    have hg : (chart_series rows pid).2.2.1.get ⟨i, h2⟩ =
        lastValueOn (chartMine rows pid) "launch_angle"
          ((chart_series rows pid).1.get ⟨i, h1⟩) := hkey "launch_angle" i h1 h2
    rw [hg]
    exact series_entry_spec rows pid "launch_angle" _
  · intro i h1 h2
    have hg : (chart_series rows pid).2.2.2.get ⟨i, h2⟩ =
        lastValueOn (chartMine rows pid) "spin_rate"
          ((chart_series rows pid).1.get ⟨i, h1⟩) := hkey "spin_rate" i h1 h2
    rw [hg]
    exact series_entry_spec rows pid "spin_rate" _

/-- Claim C6 witness: on `sampleRows` the launch-angle series marks the
first day (no launch-angle row) with the absent marker `none` and carries
the real value 12 on the second day. -/
theorem chart_series_aligned_witness :
    (chart_series sampleRows 7).2.2.1.get ⟨0, by decide⟩ = none ∧
      ∃ r ∈ sampleRows, r.player_id = 7 ∧ normName r.metric = "launch_angle" ∧
        dayLabel r.recorded_at = (chart_series sampleRows 7).1.get ⟨1, by decide⟩ ∧
        r.value = 12 :=
  ⟨((chart_series_aligned sampleRows 7).2.2.1 0 (by decide) (by decide)).1.mpr (by decide),
    ((chart_series_aligned sampleRows 7).2.2.1 1 (by decide) (by decide)).2 12 (by decide)⟩

theorem forall₂_map_self {α β : Type} {P : α → β → Prop} {f : α → β} :
    ∀ {l : List α}, (∀ a ∈ l, P a (f a)) → List.Forall₂ P l (l.map f)
  | [], _ => List.Forall₂.nil
  | a :: _, h =>
    List.Forall₂.cons (h a (List.mem_cons_self _ _))
      (forall₂_map_self fun x hx => h x (List.mem_cons_of_mem _ hx))

/-- Claim C3 counterexample: idempotence does not hold for every starting
database state — on a SQLite database whose metrics introspection fails
and whose metrics table genuinely lacks the expected columns, the first
reconciliation run succeeds (adding the columns), but the second run,
introspection still returning an empty set, re-attempts the adds and
raises on the now-existing `metric` column.  The same input also refutes
the duplicate-add conjunct: on SQLite an attempted add of an existing
column is a failure, not a success. -/
theorem ensure_schema_twice_raises :
    (ensure_schema failingFreshSqliteState).isOk = true ∧
      ensure_schema_twice failingFreshSqliteState = .error "duplicate column: metric" :=
  ⟨rfl, rfl⟩

/-- Claim C3 (amended): schema reconciliation is idempotent on every
state whose table introspection succeeds — the first run succeeds, the
second run returns the same state (hence the same column set for every
table) with an empty DDL log and no error.  A duplicate column add is
treated as success rather than failure on the dialect that can race
(postgresql, via `ADD COLUMN IF NOT EXISTS`); on SQLite a duplicate add
would fail, and the reconciler instead avoids ever attempting one through
its snapshot guard — which is exactly why working introspection is needed
for idempotence. -/
theorem ensure_schema_idempotent (st : DBState) (hfail : st.failing = []) :
    ∃ p : DBState × List String, ensure_schema st = .ok p ∧
      ensure_schema p.1 = .ok (p.1, []) ∧
      ∀ (cols : Finset String) (c : String), c ∈ cols →
        addCol "postgresql" cols c = .ok cols := by
  refine ⟨(reconciled st, addedLog st), ensure_schema_ok st hfail, ?_, ?_⟩
  · have h2 : (reconciled st).failing = [] := hfail
    rw [ensure_schema_ok (reconciled st) h2, reconciled_idem, addedLog_reconciled]
  · intro cols c hc
    unfold addCol
    rw [if_pos rfl, Finset.insert_eq_self.mpr hc]

/-- Claim C3 witness: the legacy database reconciles, a second run
changes nothing, and a duplicate postgresql add is a success. -/
theorem ensure_schema_idempotent_witness :
    legacyState.failing = [] ∧
      ∃ p : DBState × List String, ensure_schema legacyState = .ok p ∧
        ensure_schema p.1 = .ok (p.1, []) ∧
        ∀ (cols : Finset String) (c : String), c ∈ cols →
          addCol "postgresql" cols c = .ok cols :=
  ⟨rfl, ensure_schema_idempotent legacyState rfl⟩

/-- Claim C4 counterexample: the unqualified claim is false — with
metrics introspection failing on the postgresql dialect, `_ensure_schema`
completes successfully (the re-adds are `IF NOT EXISTS` no-ops), yet the
backfill guard `"recorded_at" in metric_cols_after` sees the empty
re-introspected column set and skips the backfill, so a row whose
`recorded_at` is NULL survives the completed run. -/
theorem ensure_schema_backfill_skipped :
    (ensure_schema failingPostgresNullRow).isOk = true ∧
      (⟨none, some "2024-01-02 08:00:00"⟩ : BackRow) ∈
        metricsRowsAfter failingPostgresNullRow :=
  ⟨rfl, by decide⟩

/-- Claim C4 (amended): after `_ensure_schema` completes on a state whose
table introspection succeeds, every metrics row has a non-NULL
`recorded_at`; a row whose `recorded_at` was NULL is backfilled from its
`created_at` cell when the `created_at` column is present in the metrics
table, and from the current time otherwise, while non-NULL values are
kept.  (When metrics introspection fails, the run can still complete with
the backfill skipped.) -/
theorem ensure_schema_backfill (st : DBState) (hfail : st.failing = []) :
    ∃ p : DBState × List String, ensure_schema st = .ok p ∧
      List.Forall₂ (fun old new : BackRow =>
        new.recorded_at.isSome = true ∧
        (∀ v, old.recorded_at = some v → new.recorded_at = some v) ∧
        (old.recorded_at = none →
          new.recorded_at = some
            (if "created_at" ∈ st.metrics ∪ metricsExpected.toFinset then
              old.created_at.getD st.now
            else st.now)))
        st.metricsRows p.1.metricsRows := by
  refine ⟨(reconciled st, addedLog st), ensure_schema_ok st hfail, ?_⟩
  show List.Forall₂ _ st.metricsRows (reconciled st).metricsRows
  by_cases hc : "created_at" ∈ st.metrics ∪ metricsExpected.toFinset
  · have hrows : (reconciled st).metricsRows = st.metricsRows.map fun r =>
        { r with recorded_at := some (r.recorded_at.getD (r.created_at.getD st.now)) } := by
      unfold reconciled
      dsimp only
      rw [if_pos hc]
    rw [hrows]
    refine forall₂_map_self fun old hold => ⟨rfl, ?_, ?_⟩
    · intro v hv
      show some (old.recorded_at.getD (old.created_at.getD st.now)) = some v
      rw [hv]
      rfl
    · intro hnone
      rw [if_pos hc]
      show some (old.recorded_at.getD (old.created_at.getD st.now)) =
        some (old.created_at.getD st.now)
      rw [hnone]
      rfl
  · have hrows : (reconciled st).metricsRows = st.metricsRows.map fun r =>
        { r with recorded_at := some (r.recorded_at.getD st.now) } := by
      unfold reconciled
      dsimp only
      rw [if_neg hc]
    rw [hrows]
    refine forall₂_map_self fun old hold => ⟨rfl, ?_, ?_⟩
    · intro v hv
      show some (old.recorded_at.getD st.now) = some v
      rw [hv]
      rfl
    · intro hnone
      rw [if_neg hc]
      show some (old.recorded_at.getD st.now) = some st.now
      rw [hnone]
      rfl

/-- Claim C4 witness: on the legacy database with a `created_at` column,
the NULL row is backfilled from `created_at` and the non-NULL row is
kept. -/
theorem ensure_schema_backfill_witness :
    legacyStateCreated.failing = [] ∧
      ∃ p : DBState × List String, ensure_schema legacyStateCreated = .ok p ∧
        List.Forall₂ (fun old new : BackRow =>
          new.recorded_at.isSome = true ∧
          (∀ v, old.recorded_at = some v → new.recorded_at = some v) ∧
          (old.recorded_at = none →
            new.recorded_at = some
              (if "created_at" ∈ legacyStateCreated.metrics ∪ metricsExpected.toFinset then
                old.created_at.getD legacyStateCreated.now
              else legacyStateCreated.now)))
          legacyStateCreated.metricsRows p.1.metricsRows :=
  ⟨rfl, ensure_schema_backfill legacyStateCreated rfl⟩

/-- Claim C8 counterexample: with metrics introspection failing on a
fully-patched SQLite database, `_ensure_schema` does NOT skip the table's
patch — it treats the column set as empty, re-attempts the first expected
column, and the duplicate add raises out of the run instead of letting it
complete. -/
theorem ensure_schema_introspection_raises :
    ensure_schema failingSqliteState = .error "duplicate column: metric" := by
  rfl

/-- Claim C8 (amended): when introspection of a table fails,
`_ensure_schema` logs and continues with an empty column set: it then
attempts to re-add every expected column of that table rather than
skipping its patch.  On the postgresql dialect (`ADD COLUMN IF NOT
EXISTS`) these re-adds are no-op successes and the run always completes;
the log records the attempted columns. -/
theorem ensure_schema_introspection_failure (st : DBState)
    (hd : st.dialect = "postgresql") :
    ∃ p : DBState × List String, ensure_schema st = .ok p ∧
      ("metrics" ∈ st.failing → ∀ n ∈ metricsExpected, ("metrics." ++ n) ∈ p.2) :=
  ensure_schema_postgres st hd

/-- Claim C8 witness: on the failing-introspection database with the
postgresql dialect, the run completes and every metrics column add was
attempted (logged), not skipped. -/
theorem ensure_schema_introspection_failure_witness :
    failingPostgresState.dialect = "postgresql" ∧
      ∃ p : DBState × List String, ensure_schema failingPostgresState = .ok p ∧
        ("metrics" ∈ failingPostgresState.failing →
          ∀ n ∈ metricsExpected, ("metrics." ++ n) ∈ p.2) :=
  ⟨rfl, ensure_schema_introspection_failure failingPostgresState rfl⟩
